import Mathlib

/-!
Verification of the crier message-delivery core (src/main.rs): dual-transport
envelope codec, auth handshake, dispatch, and acknowledgment behavior.

The Rust functions are shallowly embedded as pure Lean functions:
  * `direct_listen` per-connection handling  -> `directListenConn`
  * the accept loop over connections         -> `directListenLoop`
  * `direct_send` acknowledgment handling    -> `directSendAck`
  * `relay_listen` payload handling          -> `relayHandlePublish` / `relayListenLoop`
  * `relay_send` confirmation event loop     -> `relaySendLoop`
  * template substitution (`str::replace`)   -> `buildCmd`
  * `BufRead::lines` line splitting          -> `splitLines`
Wire streams become lists of lines (Direct) or payload strings (Relay);
command execution becomes an oracle `String -> CmdResult` so that theorems can
quantify over every possible execution outcome.
-/

/-- Outcome of running a command through the shell, modelling
    `Command::new("sh").arg("-c").arg(cmd).status()` in `run_command`:
    `Ok(status)` becomes `exit success`, `Err(e)` becomes `launchFailed e`. -/
inductive CmdResult where
  | exit (success : Bool)
  | launchFailed (err : String)
deriving DecidableEq

/-- Diagnostic printed by `run_command` for a given execution outcome
    (`eprintln` on failed status or failed launch, silence on success). -/
def runCommandDiag : CmdResult → Option String
  | .exit s => if s then none else some "Command failed"
  | .launchFailed e => some ("Failed to run: " ++ e)

/-- Rust `str::replace` specialised to scanning with a pattern, char-level,
    with fuel (the initial fuel is the text length, which suffices):
    at each position, if `pat` is a prefix of the remaining text, emit `rep`
    and skip past the match, else emit the char and advance. -/
def replaceGo (pat rep : List Char) : Nat → List Char → List Char
  | _, [] => []
  | 0, l => l
  | n + 1, c :: rest =>
    if pat.isPrefixOf (c :: rest) then
      rep ++ replaceGo pat rep n (rest.drop (pat.length - 1))
    else
      c :: replaceGo pat rep n rest

/-- `cmd_template.replace("{}", &message)` — build the command string by
    replacing every occurrence of the placeholder with the message. -/
def buildCmd (template message : String) : String :=
  ⟨replaceGo "{}".data message.data template.data.length template.data⟩

/-- Specification-side counterpart of the replacement scan: split the text at
    each occurrence of `pat` (same greedy left-to-right scan, same fuel),
    keeping the in-between segments. Rejoining the segments with any
    replacement characterizes replace-all. -/
def splitGo (pat : List Char) : Nat → List Char → List (List Char)
  | _, [] => [[]]
  | 0, l => [l]
  | n + 1, c :: rest =>
    if pat.isPrefixOf (c :: rest) then
      [] :: splitGo pat n (rest.drop (pat.length - 1))
    else
      match splitGo pat n rest with
      | [] => [[c]]
      | s :: ss => (c :: s) :: ss

/-- Join segments, inserting `sep` between adjacent ones. -/
def joinWith (sep : List Char) : List (List Char) → List Char
  | [] => []
  | [s] => s
  | s :: ss => s ++ sep ++ joinWith sep ss

/-- `payload.strip_prefix(p)`: if `s` starts with `p`, the remainder, else none. -/
def stripPrefix (p s : String) : Option String :=
  if p.data.isPrefixOf s.data then some ⟨s.data.drop p.data.length⟩ else none

/-- Drop one trailing carriage return, as `BufRead::lines` does on a line that
    was terminated by a newline. -/
def stripCR (l : List Char) : List Char :=
  if l.getLast? = some '\r' then l.dropLast else l

/-- `BufRead::lines` on a char stream, with fuel (the initial fuel is the
    stream length, which suffices): split at each newline byte (removing a
    preceding carriage return); a final segment without a terminator is still
    yielded when nonempty; an empty stream yields no lines. -/
def linesGo : Nat → List Char → List (List Char)
  | _, [] => []
  | 0, l => [l]
  | n + 1, c :: cs =>
    let line := (c :: cs).takeWhile (fun x => x ≠ '\n')
    match (c :: cs).dropWhile (fun x => x ≠ '\n') with
    | [] => [line]
    | _ :: rest => stripCR line :: linesGo n rest

/-- The list of lines a Direct listener's `BufReader::lines()` yields from a
    raw connection stream. -/
def splitLines (s : String) : List String :=
  (linesGo s.data.length s.data).map (fun l => ⟨l⟩)

/-- Leading and trailing whitespace removal on chars (Rust `str::trim`). -/
def trimChars (l : List Char) : List Char :=
  ((l.dropWhile Char.isWhitespace).reverse.dropWhile Char.isWhitespace).reverse

/-- Rust `str::trim`, modelled at char level. -/
def strTrim (s : String) : String :=
  ⟨trimChars s.data⟩

/-- The two `writeln!` calls of `direct_send`: an `AUTH:<token>` line when an
    auth token is configured, then the message line. -/
def directEncodeLines (auth : Option String) (message : String) : List String :=
  match auth with
  | some t => ["AUTH:" ++ t, message]
  | none => [message]

/-- The payload built by `relay_send`: `AUTH:<token>:<message>` when an auth
    token is configured, else the bare message. -/
def relayEncode (auth : Option String) (message : String) : String :=
  match auth with
  | some t => "AUTH:" ++ t ++ ":" ++ message
  | none => message

/-- The auth/extraction step of `relay_listen`: with a configured token the
    payload must start with `AUTH:<token>:` and the remainder is the message;
    without one the whole payload is the message. -/
def relayDecode (expected : Option String) (payload : String) : Option String :=
  match expected with
  | some t => stripPrefix ("AUTH:" ++ t ++ ":") payload
  | none => some payload

/-- Everything observable about one handled Direct connection: the message
    dispatched (if any), the result of the command run for it (if any), and
    the bytes written back on the stream (if any). -/
structure ConnOutcome where
  dispatched : Option String
  cmdResult : Option CmdResult
  response : Option String
deriving DecidableEq

/-- The part of `direct_listen`'s connection handler after the auth gate:
    read one line as the message, dispatch it and acknowledge `OK\n`;
    at end-of-stream do nothing (no acknowledgment, no dispatch). -/
def directAfterAuth (exec : String → CmdResult) (template : String) :
    List String → ConnOutcome
  | msg :: _ => ⟨some msg, some (exec (buildCmd template msg)), some "OK\n"⟩
  | [] => ⟨none, none, none⟩

/-- One iteration of `direct_listen`'s accept loop on an already-split line
    stream: with a configured token, the first line must equal `AUTH:<token>`
    (wrong or missing line writes exactly `ERR:AUTH\n` and stops); then the
    next line, when present, is dispatched and acknowledged with `OK\n`. -/
def directListenConn (expected : Option String) (exec : String → CmdResult)
    (template : String) : List String → ConnOutcome
  | lines =>
    match expected with
    | some t =>
      match lines with
      | line :: rest =>
        if line = "AUTH:" ++ t then directAfterAuth exec template rest
        else ⟨none, none, some "ERR:AUTH\n"⟩
      | [] => ⟨none, none, some "ERR:AUTH\n"⟩
    | none => directAfterAuth exec template lines

/-- The unbounded accept loop of `direct_listen`, over a list of connection
    streams: each connection is handled in order, independently. -/
def directListenLoop (expected : Option String) (exec : String → CmdResult)
    (template : String) (conns : List (List String)) : List ConnOutcome :=
  conns.map (directListenConn expected exec template)

/-- What `direct_send` does with the single acknowledgment read:
    `none` models a failed `read_line` (the `is_ok` guard fails and the
    function silently returns), `some s` a successfully read line. -/
inductive SendAckResult where
  | success
  | failureExit (reported : String)
  | silentReturn
deriving DecidableEq

/-- The acknowledgment handling at the end of `direct_send`: on a read line,
    trim and compare with `OK` (success, else report the trimmed line and
    exit non-zero); on a read failure, fall through and return normally. -/
def directSendAck (readLine : Option String) : SendAckResult :=
  match readLine with
  | some resp => if strTrim resp = "OK" then .success else .failureExit (strTrim resp)
  | none => .silentReturn

/-- Process exit status produced by each `direct_send` acknowledgment outcome. -/
def sendAckExit : SendAckResult → Nat
  | .success => 0
  | .failureExit _ => 1
  | .silentReturn => 0

-- Relay listener event loop

/-- An MQTT event as seen by `relay_listen`'s match: a publish on the
    subscribed topic (payload already UTF-8 decoded) or anything else. -/
inductive RelayInEvent where
  | publish (payload : String)
  | other
deriving DecidableEq

/-- Observable action of `relay_listen` on one publish: either the auth-failed
    diagnostic with the message discarded, or dispatch of a message with the
    substituted command. -/
inductive RelayAction where
  | authFailed
  | dispatched (message : String) (cmd : String)
deriving DecidableEq

/-- Handling of one publish event inside `relay_listen`'s loop body. -/
def relayHandlePublish (expected : Option String) (template : String)
    (payload : String) : RelayAction :=
  match relayDecode expected payload with
  | some m => .dispatched m (buildCmd template m)
  | none => .authFailed

/-- `relay_listen`'s event loop `for event in connection.iter().flatten()`:
    error items are flattened away, non-publish events are skipped, and each
    publish is handled in order. -/
def relayListenLoop (expected : Option String) (template : String)
    (events : List (Except String RelayInEvent)) : List RelayAction :=
  (events.filterMap (fun ev => match ev with
    | Except.ok e => some e
    | Except.error _ => none)).filterMap
    (fun e => match e with
      | RelayInEvent.publish p => some (relayHandlePublish expected template p)
      | RelayInEvent.other => none)

-- Relay sender confirmation loop

/-- An event seen by `relay_send`'s confirmation loop. -/
inductive RelayOutEvent where
  | outgoingPublish
  | connAck
  | other
deriving DecidableEq

/-- Terminal outcome of `relay_send`'s confirmation loop. -/
inductive RelaySendOutcome where
  | sentOk
  | timeoutExit
  | errorExit (err : String)
  | iterEnded
deriving DecidableEq

/-- `relay_send`'s polling loop: each iteration carries the elapsed
    milliseconds at that point; past 5000 ms the loop exits with the timeout
    error, otherwise an outgoing-publish confirmation reports success, a
    connection acknowledgment (or any other event) is consumed and the loop
    continues, and an error event exits with an error. -/
def relaySendLoop : List (Nat × Except String RelayOutEvent) → RelaySendOutcome
  | [] => .iterEnded
  | (elapsedMs, ev) :: rest =>
    if 5000 < elapsedMs then .timeoutExit
    else
      match ev with
      | Except.ok .outgoingPublish => .sentOk
      | Except.ok .connAck => relaySendLoop rest
      | Except.ok .other => relaySendLoop rest
      | Except.error e => .errorExit e

/-- Process exit status for each `relay_send` outcome (falling off the end of
    the iterator returns normally, hence exit 0). -/
def relaySendExit : RelaySendOutcome → Nat
  | .sentOk => 0
  | .timeoutExit => 1
  | .errorExit _ => 1
  | .iterEnded => 0

-- Helper lemmas

theorem stripPrefix_append (p m : String) : stripPrefix p (p ++ m) = some m := by
  unfold stripPrefix
  have hdata : (p ++ m).data = p.data ++ m.data := rfl
  rw [hdata]
  rw [if_pos]
  · rw [List.drop_left]
  · exact List.isPrefixOf_iff_prefix.mpr (List.prefix_append p.data m.data)

theorem splitLines_two : splitLines "AUTH:secret\nhello\n" = ["AUTH:secret", "hello"] := by
  decide

theorem splitLines_one : splitLines "AUTH:secret\n" = ["AUTH:secret"] := by
  decide

/-- Evaluation of the replacement scan on the template `echo "{}" "{}"` with an
    arbitrary replacement: both placeholder occurrences are replaced. -/
theorem replaceGo_tmpl_eval (rep : List Char) :
    replaceGo ['{', '}'] rep 14
        ['e', 'c', 'h', 'o', ' ', '"', '{', '}', '"', ' ', '"', '{', '}', '"']
      = 'e' :: 'c' :: 'h' :: 'o' :: ' ' :: '"' ::
          (rep ++ ('"' :: ' ' :: '"' :: (rep ++ ['"']))) := rfl

/-- The split scan never yields an empty segment list. -/
theorem splitGo_ne_nil (pat : List Char) (n : Nat) (l : List Char) :
    splitGo pat n l ≠ [] := by
  match n, l with
  | _, [] => simp [splitGo]
  | 0, c :: rest => simp [splitGo]
  | n + 1, c :: rest =>
    unfold splitGo
    split
    · simp
    · split <;> simp

/-- Replace-all is joining the split segments with the replacement: the two
    scans agree for every pattern, replacement, fuel and text. -/
theorem replaceGo_eq_joinWith (pat rep : List Char) (n : Nat) (l : List Char) :
    replaceGo pat rep n l = joinWith rep (splitGo pat n l) := by
  induction n generalizing l with
  | zero =>
    cases l with
    | nil => rfl
    | cons c rest => rfl
  | succ n ih =>
    cases l with
    | nil => rfl
    | cons c rest =>
      by_cases h : pat.isPrefixOf (c :: rest) = true
      · rw [show replaceGo pat rep (n + 1) (c :: rest)
              = rep ++ replaceGo pat rep n (rest.drop (pat.length - 1)) from by
            simp [replaceGo, h]]
        rw [show splitGo pat (n + 1) (c :: rest)
              = [] :: splitGo pat n (rest.drop (pat.length - 1)) from by
            simp [splitGo, h]]
        rw [ih]
        cases hsg : splitGo pat n (rest.drop (pat.length - 1)) with
        | nil => exact absurd hsg (splitGo_ne_nil pat n _)
        | cons s ss => simp [joinWith]
      · rw [show replaceGo pat rep (n + 1) (c :: rest)
              = c :: replaceGo pat rep n rest from by simp [replaceGo, h]]
        rw [ih]
        cases hsg : splitGo pat n rest with
        | nil => exact absurd hsg (splitGo_ne_nil pat n rest)
        | cons s ss =>
          rw [show splitGo pat (n + 1) (c :: rest) = (c :: s) :: ss from by
            simp [splitGo, h, hsg]]
          cases ss with
          | nil => simp [joinWith]
          | cons s2 ss2 => simp [joinWith]

/-- The split is a decomposition: rejoining the segments with the placeholder
    itself restores the original text. -/
theorem joinWith_splitGo (n : Nat) (l : List Char) :
    joinWith ['{', '}'] (splitGo ['{', '}'] n l) = l := by
  induction n generalizing l with
  | zero =>
    cases l with
    | nil => rfl
    | cons c rest => rfl
  | succ n ih =>
    cases l with
    | nil => rfl
    | cons c rest =>
      by_cases h : (['{', '}'] : List Char).isPrefixOf (c :: rest) = true
      · cases rest with
        | nil => simp [List.isPrefixOf] at h
        | cons c2 rest2 =>
          simp [List.isPrefixOf] at h
          obtain ⟨hc, hc2⟩ := h
          subst hc
          subst hc2
          rw [show splitGo ['{', '}'] (n + 1) ('{' :: '}' :: rest2)
                = [] :: splitGo ['{', '}'] n rest2 from by
            simp [splitGo, List.isPrefixOf]]
          cases hsg : splitGo ['{', '}'] n rest2 with
          | nil => exact absurd hsg (splitGo_ne_nil _ _ _)
          | cons s ss =>
            have hr := ih rest2
            rw [hsg] at hr
            simp [joinWith, hr]
      · cases hsg : splitGo ['{', '}'] n rest with
        | nil => exact absurd hsg (splitGo_ne_nil _ _ _)
        | cons s ss =>
          rw [show splitGo ['{', '}'] (n + 1) (c :: rest) = (c :: s) :: ss from by
            simp [splitGo, h, hsg]]
          have hr := ih rest
          rw [hsg] at hr
          cases ss with
          | nil =>
            rw [show joinWith ['{', '}'] [s] = s from rfl] at hr
            simp [joinWith, hr]
          | cons s2 ss2 =>
            rw [show joinWith ['{', '}'] (s :: s2 :: ss2)
                  = s ++ ['{', '}'] ++ joinWith ['{', '}'] (s2 :: ss2) from rfl] at hr
            simp [joinWith, ← hr]

/-- The first split segment is a prefix of the scanned text. -/
theorem splitGo_head_prefix (n : Nat) (rest s0 : List Char)
    (ss0 : List (List Char)) (hsg : splitGo ['{', '}'] n rest = s0 :: ss0) :
    s0 <+: rest := by
  have hj := joinWith_splitGo n rest
  rw [hsg] at hj
  cases ss0 with
  | nil =>
    rw [show joinWith ['{', '}'] [s0] = s0 from rfl] at hj
    exact hj ▸ List.prefix_refl s0
  | cons s1 ss1 =>
    rw [show joinWith ['{', '}'] (s0 :: s1 :: ss1)
          = s0 ++ ['{', '}'] ++ joinWith ['{', '}'] (s1 :: ss1) from rfl] at hj
    exact ⟨['{', '}'] ++ joinWith ['{', '}'] (s1 :: ss1), by
      rw [← List.append_assoc]
      exact hj⟩

/-- With enough fuel, no split segment contains an occurrence of the
    placeholder: every occurrence was consumed by the scan. -/
theorem splitGo_not_infix (n : Nat) (l : List Char) (hn : l.length ≤ n) :
    ∀ s ∈ splitGo ['{', '}'] n l, ¬ (['{', '}'] <:+: s) := by
  induction n generalizing l with
  | zero =>
    have hl : l = [] := List.length_eq_zero.mp (Nat.le_zero.mp hn)
    subst hl
    intro s hs
    rw [show splitGo ['{', '}'] 0 [] = [[]] from rfl] at hs
    simp at hs
    subst hs
    decide
  | succ n ih =>
    cases l with
    | nil =>
      intro s hs
      rw [show splitGo ['{', '}'] (n + 1) [] = [[]] from rfl] at hs
      simp at hs
      subst hs
      decide
    | cons c rest =>
      have hrest : rest.length ≤ n := by
        simp only [List.length_cons] at hn
        omega
      by_cases h : (['{', '}'] : List Char).isPrefixOf (c :: rest) = true
      · intro s hs
        rw [show splitGo ['{', '}'] (n + 1) (c :: rest)
              = [] :: splitGo ['{', '}'] n (rest.drop 1) from by
            simp [splitGo, h]] at hs
        rcases List.mem_cons.mp hs with hs | hs
        · subst hs
          decide
        · exact ih (rest.drop 1) (by simp [List.length_drop]; omega) s hs
      · intro s hs
        cases hsg : splitGo ['{', '}'] n rest with
        | nil => exact absurd hsg (splitGo_ne_nil _ _ _)
        | cons s0 ss0 =>
          rw [show splitGo ['{', '}'] (n + 1) (c :: rest) = (c :: s0) :: ss0 from by
            simp [splitGo, h, hsg]] at hs
          have hih := ih rest hrest
          rw [hsg] at hih
          rcases List.mem_cons.mp hs with hseq | hs
          · subst hseq
            intro hinf
            obtain ⟨pre, suf, hps⟩ := hinf
            cases pre with
            | nil =>
              simp only [List.nil_append, List.cons_append, List.cons.injEq] at hps
              obtain ⟨hc, hs0⟩ := hps
              obtain ⟨u, hu⟩ := splitGo_head_prefix n rest s0 ss0 hsg
              apply h
              rw [← hc, ← hu, ← hs0]
              simp [List.isPrefixOf]
            | cons p ps =>
              simp only [List.cons_append, List.cons.injEq] at hps
              obtain ⟨hc, hs0⟩ := hps
              exact hih s0 (List.mem_cons_self _ _) ⟨ps, suf, hs0⟩
          · exact hih s (List.mem_cons_of_mem _ hs)

-- Claim theorems

/-- C1: Round trip — for every message `m` with no embedded newline and every
    auth token `t`, the listener configured with `t` recovers exactly `m` on
    both transports: on Direct from the two wire lines written by the sender
    (`AUTH:t` then `m`, acknowledged `OK\n`), and on Relay from the sender's
    payload `AUTH:t:m` (even when `m` contains colons). -/
theorem round_trip_decode_encode (t m template : String) (exec : String → CmdResult)
    (h : m.data.contains '\n' = false) :
    (directListenConn (some t) exec template (directEncodeLines (some t) m)).dispatched
        = some m ∧
    (directListenConn (some t) exec template (directEncodeLines (some t) m)).response
        = some "OK\n" ∧
    relayDecode (some t) (relayEncode (some t) m) = some m := by
  refine ⟨?_, ?_, ?_⟩
  · simp [directListenConn, directEncodeLines, directAfterAuth]
  · simp [directListenConn, directEncodeLines, directAfterAuth]
  · show stripPrefix ("AUTH:" ++ t ++ ":") ("AUTH:" ++ t ++ ":" ++ m) = some m
    exact stripPrefix_append ("AUTH:" ++ t ++ ":") m

/-- C1 witness: token `secret`, colon-containing message `hello:world`. -/
theorem round_trip_decode_encode_witness :
    ("hello:world".data.contains '\n' = false) ∧
    ((directListenConn (some "secret") (fun _ => CmdResult.exit true) "echo {}"
        (directEncodeLines (some "secret") "hello:world")).dispatched
          = some "hello:world" ∧
     (directListenConn (some "secret") (fun _ => CmdResult.exit true) "echo {}"
        (directEncodeLines (some "secret") "hello:world")).response = some "OK\n" ∧
     relayDecode (some "secret") (relayEncode (some "secret") "hello:world")
        = some "hello:world") :=
  ⟨by decide,
   round_trip_decode_encode "secret" "hello:world" "echo {}"
     (fun _ => CmdResult.exit true) (by decide)⟩

/-- C2 counterexample: when the acknowledgment read itself fails, `direct_send`
    silently returns and the process exits 0 — the claim requires a reported
    failure with non-zero exit; moreover a line ` OK` with leading whitespace
    is accepted as success, while the claim (trimming only trailing
    whitespace) classifies it as a failure. -/
theorem direct_send_ack_claim_cex :
    directSendAck none = SendAckResult.silentReturn ∧
    sendAckExit (directSendAck none) = 0 ∧
    directSendAck (some " OK") = SendAckResult.success := by
  decide

/-- C2 (amended): `direct_send` reads one acknowledgment line; a read line
    equal to `OK` after trimming surrounding whitespace is reported as
    success; any other read line is reported as a failure carrying the trimmed
    line content and the process exits non-zero; a failure of the read itself
    is silently ignored and the process exits zero. -/
theorem direct_send_ack_characterization (r : Option String) :
    (directSendAck r = SendAckResult.success ↔ ∃ s, r = some s ∧ strTrim s = "OK") ∧
    (sendAckExit (directSendAck r) ≠ 0
      ↔ ∃ s, r = some s ∧ strTrim s ≠ "OK"
          ∧ directSendAck r = SendAckResult.failureExit (strTrim s)) ∧
    (directSendAck r = SendAckResult.silentReturn ↔ r = none) := by
  cases r with
  | none => simp [directSendAck, sendAckExit]
  | some s =>
    by_cases h : strTrim s = "OK" <;>
      simp [directSendAck, sendAckExit, h]

/-- C3: Direct auth enforcement — with a configured token, a wrong or missing
    first line is answered with exactly `ERR:AUTH\n` and nothing is
    dispatched, and the accept loop goes on to the remaining connections;
    the connection stream `AUTH:secret\nhello\n` against token `secret`
    dispatches `hello` and is answered `OK\n`. -/
theorem direct_auth_enforcement (t template first : String)
    (exec : String → CmdResult) (rest : List String) (conns : List (List String))
    (h : first ≠ "AUTH:" ++ t) :
    directListenConn (some t) exec template (first :: rest)
      = ⟨none, none, some "ERR:AUTH\n"⟩ ∧
    directListenConn (some t) exec template [] = ⟨none, none, some "ERR:AUTH\n"⟩ ∧
    directListenLoop (some t) exec template ((first :: rest) :: conns)
      = ⟨none, none, some "ERR:AUTH\n"⟩ :: directListenLoop (some t) exec template conns ∧
    (directListenConn (some "secret") exec template
        (splitLines "AUTH:secret\nhello\n")).dispatched = some "hello" ∧
    (directListenConn (some "secret") exec template
        (splitLines "AUTH:secret\nhello\n")).response = some "OK\n" := by
  have h1 : directListenConn (some t) exec template (first :: rest)
      = ⟨none, none, some "ERR:AUTH\n"⟩ := by
    simp [directListenConn, h]
  refine ⟨h1, by simp [directListenConn], ?_, ?_, ?_⟩
  · simp [directListenLoop, h1]
  · rw [splitLines_two]
    simp [directListenConn, directAfterAuth]
  · rw [splitLines_two]
    simp [directListenConn, directAfterAuth]

/-- C3 witness: wrong first line `AUTH:wrong` against token `secret`. -/
theorem direct_auth_enforcement_witness :
    directListenConn (some "secret") (fun _ => CmdResult.exit true) "echo {}"
        ["AUTH:wrong"] = ⟨none, none, some "ERR:AUTH\n"⟩ ∧
    directListenConn (some "secret") (fun _ => CmdResult.exit true) "echo {}" []
      = ⟨none, none, some "ERR:AUTH\n"⟩ ∧
    directListenLoop (some "secret") (fun _ => CmdResult.exit true) "echo {}"
        (["AUTH:wrong"] :: [["AUTH:secret", "later"]])
      = ⟨none, none, some "ERR:AUTH\n"⟩ ::
          directListenLoop (some "secret") (fun _ => CmdResult.exit true) "echo {}"
            [["AUTH:secret", "later"]] ∧
    (directListenConn (some "secret") (fun _ => CmdResult.exit true) "echo {}"
        (splitLines "AUTH:secret\nhello\n")).dispatched = some "hello" ∧
    (directListenConn (some "secret") (fun _ => CmdResult.exit true) "echo {}"
        (splitLines "AUTH:secret\nhello\n")).response = some "OK\n" :=
  direct_auth_enforcement "secret" "echo {}" "AUTH:wrong"
    (fun _ => CmdResult.exit true) [] [["AUTH:secret", "later"]] (by decide)

/-- C4: Relay auth enforcement — with a configured token, a payload that does
    not start with `AUTH:<token>:` yields the auth-failure action and no
    dispatch while the event loop continues with the remaining events; a
    payload that does start with it dispatches exactly the remainder
    (`AUTH:secret:ping` dispatches `ping`). -/
theorem relay_auth_enforcement (t template payload m : String)
    (rest : List (Except String RelayInEvent))
    (h : ("AUTH:" ++ t ++ ":").data.isPrefixOf payload.data = false) :
    relayHandlePublish (some t) template payload = RelayAction.authFailed ∧
    relayHandlePublish (some t) template ("AUTH:" ++ t ++ ":" ++ m)
      = RelayAction.dispatched m (buildCmd template m) ∧
    relayHandlePublish (some "secret") template "AUTH:secret:ping"
      = RelayAction.dispatched "ping" (buildCmd template "ping") ∧
    relayListenLoop (some t) template
        (Except.ok (RelayInEvent.publish payload) :: rest)
      = RelayAction.authFailed :: relayListenLoop (some t) template rest := by
  have hdec : relayDecode (some t) payload = none := by
    show stripPrefix ("AUTH:" ++ t ++ ":") payload = none
    unfold stripPrefix
    rw [if_neg]
    intro hp
    rw [hp] at h
    simp at h
  have h1 : relayHandlePublish (some t) template payload = RelayAction.authFailed := by
    simp [relayHandlePublish, hdec]
  have h2 : relayDecode (some t) ("AUTH:" ++ t ++ ":" ++ m) = some m :=
    stripPrefix_append ("AUTH:" ++ t ++ ":") m
  refine ⟨h1, ?_, ?_, ?_⟩
  · simp [relayHandlePublish, h2]
  · have : relayDecode (some "secret") "AUTH:secret:ping" = some "ping" := by decide
    simp [relayHandlePublish, this]
  · simp [relayListenLoop, h1]

/-- C4 witness: payload `AUTH:wrong:ping` against token `secret`. -/
theorem relay_auth_enforcement_witness :
    relayHandlePublish (some "secret") "echo {}" "AUTH:wrong:ping"
      = RelayAction.authFailed ∧
    relayHandlePublish (some "secret") "echo {}" ("AUTH:" ++ "secret" ++ ":" ++ "ping")
      = RelayAction.dispatched "ping" (buildCmd "echo {}" "ping") ∧
    relayHandlePublish (some "secret") "echo {}" "AUTH:secret:ping"
      = RelayAction.dispatched "ping" (buildCmd "echo {}" "ping") ∧
    relayListenLoop (some "secret") "echo {}"
        (Except.ok (RelayInEvent.publish "AUTH:wrong:ping")
          :: [Except.ok (RelayInEvent.publish "AUTH:secret:ping")])
      = RelayAction.authFailed ::
          relayListenLoop (some "secret") "echo {}"
            [Except.ok (RelayInEvent.publish "AUTH:secret:ping")] :=
  relay_auth_enforcement "secret" "echo {}" "AUTH:wrong:ping" "ping"
    [Except.ok (RelayInEvent.publish "AUTH:secret:ping")] (by decide)

/-- C5: whenever a Direct connection reaches dispatch, the listener answers
    `OK\n`, and the answer is identical under every command-execution oracle —
    a failing exit status or a failed interpreter launch never changes the
    transport acknowledgment. -/
theorem ack_independent_of_command (expected : Option String) (template msg : String)
    (exec exec2 : String → CmdResult) (lines : List String)
    (h : (directListenConn expected exec template lines).dispatched = some msg) :
    (directListenConn expected exec template lines).response = some "OK\n" ∧
    (directListenConn expected exec template lines).response
      = (directListenConn expected exec2 template lines).response := by
  cases expected with
  | none =>
    cases lines with
    | nil => simp [directListenConn, directAfterAuth] at h
    | cons a as => simp [directListenConn, directAfterAuth]
  | some t =>
    cases lines with
    | nil => simp [directListenConn] at h
    | cons a as =>
      by_cases hl : a = "AUTH:" ++ t
      · cases as with
        | nil => simp [directListenConn, hl, directAfterAuth] at h
        | cons b bs => simp [directListenConn, hl, directAfterAuth]
      · simp [directListenConn, hl] at h

/-- C5 witness: the acknowledgment for a dispatched message is `OK\n` both
    when the command fails to launch and when it exits unsuccessfully. -/
theorem ack_independent_of_command_witness :
    (directListenConn none (fun _ => CmdResult.launchFailed "no shell") "notify {}"
        ["hello"]).response = some "OK\n" ∧
    (directListenConn none (fun _ => CmdResult.launchFailed "no shell") "notify {}"
        ["hello"]).response
      = (directListenConn none (fun _ => CmdResult.exit false) "notify {}"
          ["hello"]).response :=
  ack_independent_of_command none "notify {}" "hello"
    (fun _ => CmdResult.launchFailed "no shell") (fun _ => CmdResult.exit false)
    ["hello"] (by decide)

/-- C6: Relay send confirmation — on any event trace whose events before the
    5-second mark are only connection acknowledgments or other non-publish,
    non-error events (each consumed without being treated as delivery
    confirmation), the first event past 5000 ms makes the loop exit with the
    timeout failure and exit status 1; consuming a connection acknowledgment
    within the bound leaves the loop outcome unchanged. -/
theorem relay_send_timeout (pre rest rest2 : List (Nat × Except String RelayOutEvent))
    (e : Nat × Except String RelayOutEvent) (t0 : Nat)
    (hpre : ∀ x ∈ pre, x.1 ≤ 5000 ∧
      (x.2 = Except.ok RelayOutEvent.connAck ∨ x.2 = Except.ok RelayOutEvent.other))
    (he : 5000 < e.1) (ht0 : t0 ≤ 5000) :
    relaySendLoop (pre ++ e :: rest) = RelaySendOutcome.timeoutExit ∧
    relaySendExit (relaySendLoop (pre ++ e :: rest)) = 1 ∧
    relaySendLoop ((t0, Except.ok RelayOutEvent.connAck) :: rest2)
      = relaySendLoop rest2 := by
  have hmain : relaySendLoop (pre ++ e :: rest) = RelaySendOutcome.timeoutExit := by
    induction pre with
    | nil =>
      obtain ⟨t1, ev⟩ := e
      simp only at he
      simp [relaySendLoop, he]
    | cons x xs ih =>
      have hx := hpre x (List.mem_cons_self x xs)
      have hxs := fun y hy => hpre y (List.mem_cons_of_mem x hy)
      obtain ⟨tx, evx⟩ := x
      simp only at hx
      have hnot : ¬ (5000 < tx) := by omega
      rcases hx.2 with h2 | h2 <;> rw [h2] at * <;>
        simp [relaySendLoop, hnot, ih hxs]
  have h3 : relaySendLoop ((t0, Except.ok RelayOutEvent.connAck) :: rest2)
      = relaySendLoop rest2 := by
    have hnot : ¬ (5000 < t0) := by omega
    simp [relaySendLoop, hnot]
  exact ⟨hmain, by simp [hmain, relaySendExit], h3⟩

/-- C6 witness: a connection acknowledgment at 1000 ms is consumed, the next
    event at 6000 ms triggers the timeout exit with status 1. -/
theorem relay_send_timeout_witness :
    relaySendLoop ([(1000, Except.ok RelayOutEvent.connAck)]
        ++ (6000, Except.ok RelayOutEvent.other) :: [])
      = RelaySendOutcome.timeoutExit ∧
    relaySendExit (relaySendLoop ([(1000, Except.ok RelayOutEvent.connAck)]
        ++ (6000, Except.ok RelayOutEvent.other) :: [])) = 1 ∧
    relaySendLoop ((1000, Except.ok RelayOutEvent.connAck)
        :: [(4000, Except.ok RelayOutEvent.outgoingPublish)])
      = relaySendLoop [(4000, Except.ok RelayOutEvent.outgoingPublish)] :=
  relay_send_timeout [(1000, Except.ok RelayOutEvent.connAck)] []
    [(4000, Except.ok RelayOutEvent.outgoingPublish)]
    (6000, Except.ok RelayOutEvent.other) 1000
    (by intro x hx
        rw [List.mem_singleton] at hx
        subst hx
        exact ⟨by omega, Or.inl rfl⟩)
    (by decide) (by decide)

/-- C7: a Direct connection that presents a correct auth line but ends before
    a message line gets no response bytes at all and no dispatch, and the
    accept loop continues with the remaining connections; the raw stream
    `AUTH:secret\n` splits into exactly that single auth line. -/
theorem direct_eof_no_ack (t template : String) (exec : String → CmdResult)
    (conns : List (List String)) :
    directListenConn (some t) exec template ["AUTH:" ++ t] = ⟨none, none, none⟩ ∧
    splitLines "AUTH:secret\n" = ["AUTH:secret"] ∧
    directListenConn (some "secret") exec template (splitLines "AUTH:secret\n")
      = ⟨none, none, none⟩ ∧
    directListenLoop (some t) exec template (["AUTH:" ++ t] :: conns)
      = ⟨none, none, none⟩ :: directListenLoop (some t) exec template conns := by
  have h1 : directListenConn (some t) exec template ["AUTH:" ++ t]
      = ⟨none, none, none⟩ := by
    simp [directListenConn, directAfterAuth]
  refine ⟨h1, splitLines_one, ?_, ?_⟩
  · rw [splitLines_one]
    simp [directListenConn, directAfterAuth]
  · simp [directListenLoop, h1]

/-- C8: for every template and every message, dispatch builds the command by
    replacing every occurrence of the placeholder `{}` with the message
    verbatim: the built command is the template's placeholder-split segment
    list rejoined with the message, where rejoining the same segments with
    `{}` restores the template exactly and no segment contains a further
    occurrence of the placeholder; in particular `echo "{}" "{}"` with any
    message `m` yields `echo "<m>" "<m>"`, and with `hi` yields
    `echo "hi" "hi"`. -/
theorem template_substitution (template m : String) :
    buildCmd template m
      = ⟨joinWith m.data (splitGo ['{', '}'] template.data.length template.data)⟩ ∧
    joinWith ['{', '}'] (splitGo ['{', '}'] template.data.length template.data)
      = template.data ∧
    (∀ s ∈ splitGo ['{', '}'] template.data.length template.data,
      ¬ (['{', '}'] <:+: s)) ∧
    buildCmd "echo \"{}\" \"{}\"" m = "echo \"" ++ m ++ "\" \"" ++ m ++ "\"" ∧
    buildCmd "echo \"{}\" \"{}\"" "hi" = "echo \"hi\" \"hi\"" := by
  refine ⟨?_, joinWith_splitGo template.data.length template.data,
    splitGo_not_infix template.data.length template.data (Nat.le_refl _), ?_, by decide⟩
  · exact congrArg (fun l => (⟨l⟩ : String))
      (replaceGo_eq_joinWith ['{', '}'] m.data template.data.length template.data)
  · apply String.ext
    show replaceGo ['{', '}'] m.data 14
        ['e', 'c', 'h', 'o', ' ', '"', '{', '}', '"', ' ', '"', '{', '}', '"']
      = ("echo \"" ++ m ++ "\" \"" ++ m ++ "\"").data
    rw [replaceGo_tmpl_eval]
    show _ = ((((['e', 'c', 'h', 'o', ' ', '"'] ++ m.data) ++ ['"', ' ', '"'])
        ++ m.data) ++ ['"'])
    simp [List.append_assoc]

/-- C9: a listener with no configured token dispatches every message verbatim
    with no auth interpretation — the Direct listener takes the first line as
    the message and the Relay listener the whole payload, even when the text
    starts with `AUTH:`. -/
theorem no_auth_pass_through (template p m : String) (exec : String → CmdResult)
    (rest : List String) :
    (directListenConn none exec template (m :: rest)).dispatched = some m ∧
    (directListenConn none exec template (m :: rest)).response = some "OK\n" ∧
    relayDecode none p = some p ∧
    (directListenConn none exec template ("AUTH:secret:x" :: rest)).dispatched
      = some "AUTH:secret:x" ∧
    relayHandlePublish none template "AUTH:secret:x"
      = RelayAction.dispatched "AUTH:secret:x" (buildCmd template "AUTH:secret:x") :=
  ⟨rfl, rfl, rfl, rfl, rfl⟩

/-- C10: the Relay listener's event loop flattens broker error items away —
    removing an error item from the event stream changes nothing observable,
    so errors are silently discarded and iteration continues with the
    remaining events. -/
theorem relay_listen_drops_errors (expected : Option String) (template err : String)
    (xs ys : List (Except String RelayInEvent)) :
    relayListenLoop expected template (xs ++ Except.error err :: ys)
      = relayListenLoop expected template (xs ++ ys) := by
  simp [relayListenLoop, List.filterMap_append, List.filterMap_cons]
